import Mathlib

/-!
Verification of the repository's two components against its specification.

Part 1 — the PIO pulse-timing microprograms (src/laser_sound_card/ppm.pio):
a cycle-accurate shallow embedding of the two state machines, one step
function per instruction listing.  Registers are 32-bit, modelled as `Nat`
kept below `2^32` by the step functions themselves (the only arithmetic the
programs perform is decrement-with-wrap and bitwise complement of a full
register, both of which stay in range).

Part 2 — the USB descriptor callbacks (src/laser_PDM/usb_descriptors.c and
the unnamed CDC variant): pure functions over the static tables, with the
mutable scratch buffer passed explicitly and every 16-bit store recorded in
a write trace.
-/

/-- Largest value of a 32-bit PIO scratch register, `0xFFFFFFFF`. -/
def MAX32 : Nat := 4294967295

/-! ## Pulse detector (ppm.pio, `.program pulse_detector`)

Instruction listing, with program counters:
```
0: wait 0 pin 0 [2]
1: wait 1 pin 0
2: wait 0 pin 0 [2]
3: mov y, ~NULL
4: jmp pin finish        (finish = 6)
5: jmp y--, count_loop   (count_loop = 4)
6: mov ISR, ~y
7: push                  (no modifier: assembles to `push block`)
   .wrap  -> 0
```
Timing model: one instruction per clock cycle; a `wait` whose condition is
not met stalls (re-executes next cycle); the `[2]` delay inserts two idle
cycles after the instruction completes.  `jmp pin` and the `wait ... pin`
instructions sample the same input pin, given to the model as the waveform
`w : Nat → Bool` indexed by the cycle counter `t` (the two-flip-flop input
synchroniser only shifts the waveform by a constant, so it is absorbed into
`w`).  `jmp y--` branches when `y` is nonzero and always decrements, the
decrement of zero wrapping to `MAX32`.  `push` with a full 4-deep RX FIFO
stalls the machine (blocking semantics of an unqualified `push`). -/

structure DetState where
  pc : Nat
  y : Nat
  isr : Nat
  delay : Nat
  fifo : List Nat
  t : Nat
deriving DecidableEq

/-- One clock cycle of the pulse-detector state machine. -/
def detStep (w : Nat → Bool) (s : DetState) : DetState :=
  if s.delay ≠ 0 then { s with delay := s.delay - 1, t := s.t + 1 } else
  match s.pc with
  | 0 => if w s.t = false then { s with pc := 1, delay := 2, t := s.t + 1 }
         else { s with t := s.t + 1 }
  | 1 => if w s.t = true then { s with pc := 2, t := s.t + 1 }
         else { s with t := s.t + 1 }
  | 2 => if w s.t = false then { s with pc := 3, delay := 2, t := s.t + 1 }
         else { s with t := s.t + 1 }
  | 3 => { s with y := MAX32, pc := 4, t := s.t + 1 }
  | 4 => if w s.t then { s with pc := 6, t := s.t + 1 }
         else { s with pc := 5, t := s.t + 1 }
  | 5 => if s.y ≠ 0 then { s with y := s.y - 1, pc := 4, t := s.t + 1 }
         else { s with y := MAX32, pc := 6, t := s.t + 1 }
  | 6 => { s with isr := MAX32 - s.y, pc := 7, t := s.t + 1 }
  | 7 => if s.fifo.length < 4 then
           { s with fifo := s.fifo ++ [s.isr], isr := 0, pc := 0, t := s.t + 1 }
         else { s with t := s.t + 1 }
  | _ => { s with t := s.t + 1 }

/-- Iterated detector steps from an arbitrary state. -/
def detRunFrom (w : Nat → Bool) (s : DetState) : Nat → DetState
  | 0 => s
  | n + 1 => detStep w (detRunFrom w s n)

/-- Reset state of the detector state machine. -/
def detInit : DetState := ⟨0, 0, 0, 0, [], 0⟩

/-- Detector run from reset. -/
def detRun (w : Nat → Bool) (n : Nat) : DetState := detRunFrom w detInit n

/-- Input waveform with a pause of `D` cycles: high one cycle, low four
cycles (first pause, a sync point), high three cycles (the pulse), then low
for exactly `D` cycles starting at `t = 8` (the measured pause), then high
forever. -/
def W (D : Nat) (t : Nat) : Bool :=
  if t < 1 then true else if t < 5 then false else if t < 8 then true
  else if t < 8 + D then false else true

/-- Input waveform whose measured pause never ends: as `W`, but the pin
stays low from `t = 8` on. -/
def Winf (t : Nat) : Bool :=
  if t < 1 then true else if t < 5 then false else if t < 8 then true
  else false

/-! ## Pulse generator (ppm.pio, `.program pulse_generator`)

Instruction listing (side-set of 1 bit drives the output pin every cycle;
the `set pins` target is the same pin and always agrees with the side-set
value in this program):
```
0: pull block      side 0
1: mov x, osr      side 0
2: set pins, 1     side 1
3: set pins, 0     side 0
4: nop             side 0    (label pause)
5: jmp x--, pause  side 0
6: set pins, 1     side 1
7: set pins, 0     side 0
   .wrap -> 0
```
`pull block` with an empty TX FIFO stalls, still asserting its side-set
value.  `pin` in the state is the level driven during the cycle just
executed. -/

structure GenState where
  pc : Nat
  x : Nat
  osr : Nat
  pin : Bool
  txfifo : List Nat
  t : Nat
deriving DecidableEq

/-- One clock cycle of the pulse-generator state machine. -/
def genStep (s : GenState) : GenState :=
  match s.pc with
  | 0 => match s.txfifo with
         | [] => { s with pin := false, t := s.t + 1 }
         | c :: rest => { s with osr := c, txfifo := rest, pin := false, pc := 1, t := s.t + 1 }
  | 1 => { s with x := s.osr, pin := false, pc := 2, t := s.t + 1 }
  | 2 => { s with pin := true, pc := 3, t := s.t + 1 }
  | 3 => { s with pin := false, pc := 4, t := s.t + 1 }
  | 4 => { s with pin := false, pc := 5, t := s.t + 1 }
  | 5 => if s.x ≠ 0 then { s with x := s.x - 1, pin := false, pc := 4, t := s.t + 1 }
         else { s with x := MAX32, pin := false, pc := 6, t := s.t + 1 }
  | 6 => { s with pin := true, pc := 7, t := s.t + 1 }
  | 7 => { s with pin := false, pc := 0, t := s.t + 1 }
  | _ => { s with t := s.t + 1 }

/-- Iterated generator steps from an arbitrary state. -/
def genRunFrom (s : GenState) : Nat → GenState
  | 0 => s
  | n + 1 => genStep (genRunFrom s n)

/-- Generator started at the top of its loop with one command `N` waiting
in its TX FIFO. -/
def genInit (N : Nat) : GenState := ⟨0, 0, 0, false, [N], 0⟩

/-- Generator run on a single command `N`. -/
def genRun (N : Nat) (n : Nat) : GenState := genRunFrom (genInit N) n

/-- Level driven on the output pin during cycle `n` of a run on command
`N`. -/
def genPin (N : Nat) (n : Nat) : Bool := (genRun N (n + 1)).pin

/-! ## String descriptor callback (`tud_descriptor_string_cb`)

The two firmware variants (src/laser_PDM/usb_descriptors.c and the unnamed
CDC variant src/unnamed/part_000) implement the identical function over
different string tables, so the function is embedded once, parametrised by
the table.  A table entry is `none` for the C `NULL` sentinel (serial slot)
and otherwise the string's ASCII byte values.  The 33-entry `uint16_t`
scratch buffer `_desc_str` is passed in explicitly as a list, and every
16-bit store the call performs is recorded as an `(index, value)` pair in
program order, so that buffer bounds and the untouched-on-error path are
observable.  The external `board_usb_get_serial(_desc_str + 1, 32)`
collaborator is a parameter: the count it returns (`serialLen`) and the
code units it stores (`serialData i` at slot `1 + i` for `i < serialLen`). -/

def TUSB_DESC_STRING : Nat := 3

def STRID_LANGID : Nat := 0

def STRID_SERIAL : Nat := 3

/-- ASCII byte values of a string literal. -/
def asciiOf (s : String) : List Nat := s.toList.map Char.toNat

/-- String table of the audio variant (src/laser_PDM/usb_descriptors.c). -/
def string_desc_arr_pdm : List (Option (List Nat)) :=
  [some [0x09, 0x04],
   some (asciiOf "IPM Group"),
   some (asciiOf "Laser Sound Card"),
   none,
   some (asciiOf "Laser Speakers"),
   some (asciiOf "Laser Microphone")]

/-- String table of the CDC variant (src/unnamed/part_000). -/
def string_desc_arr_cdc : List (Option (List Nat)) :=
  [some [0x09, 0x04],
   some (asciiOf "ppm_loop"),
   some (asciiOf "ppm"),
   none,
   some (asciiOf "ppm_loop"),
   some (asciiOf "PPMReset")]

/-- The switch of `tud_descriptor_string_cb`: the payload stores it performs
(each an `(index, value)` pair on the 16-bit scratch buffer) and the value
of `chr_count` on exit, or `none` for the early `return NULL` of the
out-of-range default branch.

The `STRID_LANGID` branch is `memcpy(&_desc_str[1], string_desc_arr[0], 2)`:
two bytes stored little-endian into the single 16-bit slot 1.  The default
branch reads `string_desc_arr[index]`; the `NULL` entry (index 3) never
reaches it in either variant because `case STRID_SERIAL` catches index 3,
so the `getD ... []` default is unreachable there. -/
def strCbWrites (tbl : List (Option (List Nat))) (serialLen : Nat)
    (serialData : Nat → Nat) (index : Nat) : Option (List (Nat × Nat) × Nat) :=
  if index = STRID_LANGID then
    let b := (tbl.getD 0 none).getD []
    some ([(1, b.getD 0 0 + 256 * b.getD 1 0)], 1)
  else if index = STRID_SERIAL then
    some ((List.range serialLen).map (fun i => (1 + i, serialData i)), serialLen)
  else if index < tbl.length then
    let s := (tbl.getD index none).getD []
    let max_count := 33 - 1
    let chr_count := if s.length > max_count then max_count else s.length
    some ((List.range chr_count).map (fun i => (1 + i, s.getD i 0)), chr_count)
  else
    none

/-- The header word written to slot 0 after the switch:
`(uint16_t)((TUSB_DESC_STRING << 8) | (2 * chr_count + 2))`. -/
def strCbHeader (chr_count : Nat) : Nat :=
  (Nat.lor (TUSB_DESC_STRING * 256) (2 * chr_count + 2)) % 65536

/-- All 16-bit stores a call performs, in program order (payload stores of
the switch, then the header store to slot 0); empty on the `NULL` path. -/
def strCbAllWrites (tbl : List (Option (List Nat))) (serialLen : Nat)
    (serialData : Nat → Nat) (index : Nat) : List (Nat × Nat) :=
  match strCbWrites tbl serialLen serialData index with
  | none => []
  | some (ws, chr_count) => ws ++ [(0, strCbHeader chr_count)]

/-- Apply a write trace to the scratch buffer. -/
def applyWrites (buf : List Nat) (ws : List (Nat × Nat)) : List Nat :=
  ws.foldl (fun b iv => b.set iv.1 iv.2) buf

/-- `tud_descriptor_string_cb`: first component is the returned pointer
(`none` for `NULL`, otherwise the buffer contents it points at), second is
the scratch buffer after the call.  `langid` is accepted and discarded,
exactly as in the C (`(void) langid`). -/
def tud_descriptor_string_cb (tbl : List (Option (List Nat))) (serialLen : Nat)
    (serialData : Nat → Nat) (index : Nat) (langid : Nat) (buf : List Nat) :
    Option (List Nat) × List Nat :=
  match strCbWrites tbl serialLen serialData index with
  | none => (none, buf)
  | some (ws, chr_count) =>
      let bufFinal := applyWrites buf (ws ++ [(0, strCbHeader chr_count)])
      (some bufFinal, bufFinal)

/-! ## Configuration descriptors (`tud_descriptor_configuration_cb`)

Byte lists.  The `TUD_CONFIG_DESCRIPTOR` and `TUD_CDC_DESCRIPTOR` blocks and
their `..._DESC_LEN` constants are the external TinyUSB stack's fixed macro
expansions, reproduced here byte for byte so that the repository's
`CONFIG_TOTAL_LEN` arithmetic can be checked against the real byte
sequence. -/

def TUSB_DESC_CONFIGURATION : Nat := 2

def TUD_CONFIG_DESC_LEN : Nat := 9

def TUD_CDC_DESC_LEN : Nat := 8 + 9 + 5 + 5 + 4 + 5 + 7 + 9 + 7 + 7

/-- TinyUSB `TUD_CONFIG_DESCRIPTOR(config_num, itf_count, stridx, total_len,
attribute, power_ma)`: the 9-byte configuration header; bytes 2 and 3 are
`total_len` little-endian. -/
def tudConfigDescriptor (config_num itf_count stridx total_len attr_byte power_ma : Nat) :
    List Nat :=
  [9, TUSB_DESC_CONFIGURATION, total_len % 256, total_len / 256 % 256,
   itf_count, config_num, stridx, Nat.lor 128 attr_byte, power_ma / 2]

/-- TinyUSB `TUD_CDC_DESCRIPTOR(itfnum, stridx, ep_notif, ep_notif_size,
epout, epin, epsize)`: IAD, control interface, four functional descriptors,
notification endpoint, data interface, two bulk endpoints — 66 bytes. -/
def tudCdcDescriptor (itfnum stridx ep_notif ep_notif_size epout epin epsize : Nat) :
    List Nat :=
  [8, 0x0B, itfnum, 2, 2, 2, 0, 0,
   9, 0x04, itfnum, 0, 1, 2, 2, 0, stridx,
   5, 0x24, 0, 0x20, 0x01,
   5, 0x24, 1, 0, itfnum + 1,
   4, 0x24, 2, 6,
   5, 0x24, 6, itfnum, itfnum + 1,
   7, 0x05, ep_notif, 3, ep_notif_size % 256, ep_notif_size / 256 % 256, 16,
   9, 0x04, itfnum + 1, 0, 2, 0x0A, 0, 0, 0,
   7, 0x05, epout, 2, epsize % 256, epsize / 256 % 256, 0,
   7, 0x05, epin, 2, epsize % 256, epsize / 256 % 256, 0]

/-- `CONFIG_TOTAL_LEN` of the CDC variant:
`TUD_CONFIG_DESC_LEN + TUD_CDC_DESC_LEN`. -/
def CONFIG_TOTAL_LEN_cdc : Nat := TUD_CONFIG_DESC_LEN + TUD_CDC_DESC_LEN

/-- `desc_configuration` of the CDC variant (src/unnamed/part_000):
`TUD_CONFIG_DESCRIPTOR(1, ITF_NUM_TOTAL, 0, CONFIG_TOTAL_LEN, 0x80, 100)`
with `ITF_NUM_TOTAL = 2`, then
`TUD_CDC_DESCRIPTOR(ITF_NUM_CDC, 4, EPNUM_CDC_NOTIF, 8, EPNUM_CDC_OUT,
EPNUM_CDC_IN, 64)` with endpoints `0x81, 0x02, 0x82`. -/
def desc_configuration_cdc : List Nat :=
  tudConfigDescriptor 1 2 0 CONFIG_TOTAL_LEN_cdc 0x80 100 ++
  tudCdcDescriptor 0 4 0x81 8 0x02 0x82 64

/-- `tud_descriptor_configuration_cb` of the CDC variant: returns the static
byte sequence, ignoring `index`. -/
def tud_descriptor_configuration_cb_cdc (index : Nat) : List Nat :=
  desc_configuration_cdc

/-- Modelled from the spec: the audio variant's stereo-headset interface
block `TUD_AUDIO_HEADSET_STEREO_DESCRIPTOR(...)` and its length constant
`TUD_AUDIO_HEADSET_STEREO_DESC_LEN` live in the project's usb_descriptors.h,
which is not under src/; the spec describes the configuration descriptor
only as "header + 1 stereo-headset block".  The block is therefore a
parameter `headset` whose length contract `headset.length = headsetLen`
(each TinyUSB `TUD_X_DESCRIPTOR` expands to `TUD_X_DESC_LEN` bytes) is a
hypothesis of the theorems.  `CONFIG_TOTAL_LEN` of this variant is
`TUD_CONFIG_DESC_LEN + CFG_TUD_AUDIO * TUD_AUDIO_HEADSET_STEREO_DESC_LEN`
with `CFG_TUD_AUDIO = 1`; the header is
`TUD_CONFIG_DESCRIPTOR(1, ITF_NUM_TOTAL, 0, CONFIG_TOTAL_LEN, 0x00, 100)`
with the variant's interface count `itf_count`. -/
def desc_configuration_audio (itf_count headsetLen : Nat) (headset : List Nat) :
    List Nat :=
  tudConfigDescriptor 1 itf_count 0 (TUD_CONFIG_DESC_LEN + 1 * headsetLen) 0 100 ++
  headset

/-- `tud_descriptor_configuration_cb` of the audio variant
(src/laser_PDM/usb_descriptors.c): returns the static byte sequence,
ignoring `index`. -/
def tud_descriptor_configuration_cb_audio (itf_count headsetLen : Nat)
    (headset : List Nat) (index : Nat) : List Nat :=
  desc_configuration_audio itf_count headsetLen headset

/-- Total-length field embedded in a configuration descriptor's header:
bytes 2 and 3, little-endian. -/
def declaredTotalLen (d : List Nat) : Nat := d.getD 2 0 + 256 * d.getD 3 0

/-! ## Iteration lemmas for the two state machines -/

theorem detRunFrom_add (w : Nat → Bool) (s : DetState) (a b : Nat) :
    detRunFrom w s (a + b) = detRunFrom w (detRunFrom w s a) b := by
  induction b with
  | zero => rfl
  | succ b ih => rw [← Nat.add_assoc, detRunFrom, detRunFrom, ih]

theorem detRun_succ (w : Nat → Bool) (n : Nat) :
    detRun w (n + 1) = detStep w (detRun w n) := rfl

theorem genRunFrom_add (s : GenState) (a b : Nat) :
    genRunFrom s (a + b) = genRunFrom (genRunFrom s a) b := by
  induction b with
  | zero => rfl
  | succ b ih => rw [← Nat.add_assoc, genRunFrom, genRunFrom, ih]

theorem genRun_succ (N n : Nat) : genRun N (n + 1) = genStep (genRun N n) := rfl

/-- The generator's countdown loop (`pause: nop; jmp x--, pause`), entered
at `pc = 4` with `x = x0`: for the first `2 * x0 + 1` cycles it ping-pongs
between the two instructions, decrementing `x` once per round trip, the pin
held low throughout. -/
theorem gen_loop (x0 o0 t0 : Nat) :
    ∀ m, m ≤ 2 * x0 + 1 →
      genRunFrom ⟨4, x0, o0, false, [], t0⟩ m
        = ⟨if m % 2 = 0 then 4 else 5, x0 - m / 2, o0, false, [], t0 + m⟩ := by
  intro m
  induction m with
  | zero => intro _; simp [genRunFrom]
  | succ m ih =>
      intro hm
      rw [genRunFrom, ih (by omega)]
      by_cases hpar : m % 2 = 0
      · have hp1 : ¬((m + 1) % 2 = 0) := by omega
        rw [if_pos hpar, if_neg hp1]
        simp only [genStep, GenState.mk.injEq, true_and, and_true]
        omega
      · have hp1 : (m + 1) % 2 = 0 := by omega
        have hx : x0 - m / 2 ≠ 0 := by omega
        rw [if_neg hpar, if_pos hp1]
        simp only [genStep, if_pos hx, GenState.mk.injEq, true_and, and_true]
        omega

/-- The detector's polling loop (`count_loop: jmp pin finish; jmp y--`),
entered at `pc = 4` with `y = y0`: as long as the pin reads low at each
poll and the counter does not reach zero, each two-cycle round trip
decrements `y` once. -/
theorem det_loop (w : Nat → Bool) (y0 i t0 : Nat) (f : List Nat) (k : Nat)
    (hk : k ≤ y0) (hlow : ∀ j, j < k → w (t0 + 2 * j) = false) :
    ∀ m, m ≤ 2 * k →
      detRunFrom w ⟨4, y0, i, 0, f, t0⟩ m
        = ⟨if m % 2 = 0 then 4 else 5, y0 - m / 2, i, 0, f, t0 + m⟩ := by
  intro m
  induction m with
  | zero => intro _; simp [detRunFrom]
  | succ m ih =>
      intro hm
      rw [detRunFrom, ih (by omega)]
      by_cases hpar : m % 2 = 0
      · have hp1 : ¬((m + 1) % 2 = 0) := by omega
        have hwm : w (t0 + m) = false := by
          have h2 : t0 + 2 * (m / 2) = t0 + m := by omega
          rw [← h2]
          exact hlow (m / 2) (by omega)
        rw [if_pos hpar, if_neg hp1]
        simp only [detStep, hwm, DetState.mk.injEq]
        norm_num
        omega
      · have hp1 : (m + 1) % 2 = 0 := by omega
        have hy : y0 - m / 2 ≠ 0 := by omega
        rw [if_neg hpar, if_pos hp1]
        simp only [detStep, if_pos hy, DetState.mk.injEq]
        norm_num
        omega

/-- The detector's lead-in from reset: first falling edge at `t = 1`,
rising edge at `t = 5`, second falling edge at `t = 8`; at `t = 12` the
machine enters the polling loop with `y = MAX32`, having pushed nothing. -/
theorem det_phaseA (w : Nat → Bool) (hw0 : w 0 = true) (hw1 : w 1 = false)
    (hw4 : w 4 = false) (hw5 : w 5 = true) (hw6 : w 6 = true) (hw7 : w 7 = true)
    (hw8 : w 8 = false) :
    detRun w 12 = ⟨4, MAX32, 0, 0, [], 12⟩ ∧
    ∀ n, n ≤ 12 → (detRun w n).fifo = [] := by
  have b0 : detRun w 0 = ⟨0, 0, 0, 0, [], 0⟩ := rfl
  have b1 : detRun w 1 = ⟨0, 0, 0, 0, [], 1⟩ := by
    rw [detRun_succ, b0]; simp [detStep, hw0]
  have b2 : detRun w 2 = ⟨1, 0, 0, 2, [], 2⟩ := by
    rw [detRun_succ, b1]; simp [detStep, hw1]
  have b3 : detRun w 3 = ⟨1, 0, 0, 1, [], 3⟩ := by
    rw [detRun_succ, b2]; simp [detStep]
  have b4 : detRun w 4 = ⟨1, 0, 0, 0, [], 4⟩ := by
    rw [detRun_succ, b3]; simp [detStep]
  have b5 : detRun w 5 = ⟨1, 0, 0, 0, [], 5⟩ := by
    rw [detRun_succ, b4]; simp [detStep, hw4]
  have b6 : detRun w 6 = ⟨2, 0, 0, 0, [], 6⟩ := by
    rw [detRun_succ, b5]; simp [detStep, hw5]
  have b7 : detRun w 7 = ⟨2, 0, 0, 0, [], 7⟩ := by
    rw [detRun_succ, b6]; simp [detStep, hw6]
  have b8 : detRun w 8 = ⟨2, 0, 0, 0, [], 8⟩ := by
    rw [detRun_succ, b7]; simp [detStep, hw7]
  have b9 : detRun w 9 = ⟨3, 0, 0, 2, [], 9⟩ := by
    rw [detRun_succ, b8]; simp [detStep, hw8]
  have b10 : detRun w 10 = ⟨3, 0, 0, 1, [], 10⟩ := by
    rw [detRun_succ, b9]; simp [detStep]
  have b11 : detRun w 11 = ⟨3, 0, 0, 0, [], 11⟩ := by
    rw [detRun_succ, b10]; simp [detStep]
  have b12 : detRun w 12 = ⟨4, MAX32, 0, 0, [], 12⟩ := by
    rw [detRun_succ, b11]; simp [detStep]
  refine ⟨b12, ?_⟩
  intro n hn
  interval_cases n <;>
    simp [b0, b1, b2, b3, b4, b5, b6, b7, b8, b9, b10, b11, b12]

/-! ## Helper lemmas -/

/-- Applying a write trace never changes the buffer's length. -/
theorem length_applyWrites (ws : List (Nat × Nat)) (buf : List Nat) :
    (applyWrites buf ws).length = buf.length := by
  induction ws generalizing buf with
  | nil => rfl
  | cons w ws ih =>
      simp only [applyWrites, List.foldl_cons] at *
      rw [ih]
      exact List.length_set ..

/-- A write trace followed by one more store. -/
theorem applyWrites_append_single (buf : List Nat) (ws : List (Nat × Nat))
    (i v : Nat) :
    applyWrites buf (ws ++ [(i, v)]) = (applyWrites buf ws).set i v := by
  simp [applyWrites, List.foldl_append]

/-- Reading slot 0 after storing to slot 0 of a nonempty buffer. -/
theorem getD_zero_set_zero (l : List Nat) (v : Nat) (hl : l ≠ []) :
    (l.set 0 v).getD 0 0 = v := by
  cases l with
  | nil => exact absurd rfl hl
  | cons a t => rfl

set_option maxRecDepth 8192 in
/-- Bitwise or of the string-descriptor type tag shifted into the high byte
with a one-byte operand is just their sum. -/
theorem lor_768_eq_add : ∀ m, m < 256 → Nat.lor 768 m = 768 + m := by decide

/-- Whatever branch of the switch produced a `some`, the exit value of
`chr_count` is at most 32 once the serial provider honours its ≤ 32
contract. -/
theorem strCbWrites_chr_count_le (tbl : List (Option (List Nat)))
    (serialLen : Nat) (serialData : Nat → Nat) (index : Nat)
    (hserial : serialLen ≤ 32) (ws : List (Nat × Nat)) (chr_count : Nat)
    (h : strCbWrites tbl serialLen serialData index = some (ws, chr_count)) :
    chr_count ≤ 32 := by
  simp only [strCbWrites] at h
  split_ifs at h with h0 h3 hlt hbig <;>
    simp only [Option.some.injEq, Prod.mk.injEq] at h <;>
    obtain ⟨-, rfl⟩ := h <;>
    omega

/-! ## Claims about the string descriptor callback -/

/-- C3: whenever `tud_descriptor_string_cb` returns a non-null pointer, the
first 16-bit code unit of the buffer it points at is the header whose high
byte is the string-descriptor type tag and whose low byte is
`2 * chr_count + 2`, and that low byte is exactly the byte count of the
returned descriptor (2 header bytes plus 2 bytes per copied code unit). -/
theorem string_desc_header_length_field
    (tbl : List (Option (List Nat))) (serialLen : Nat) (serialData : Nat → Nat)
    (index langid : Nat) (buf : List Nat) (r : List Nat)
    (hbuf : buf.length = 33) (hserial : serialLen ≤ 32)
    (hr : (tud_descriptor_string_cb tbl serialLen serialData index langid buf).1
            = some r) :
    ∃ ws chr_count,
      strCbWrites tbl serialLen serialData index = some (ws, chr_count) ∧
      r.getD 0 0 = TUSB_DESC_STRING * 256 + (2 * chr_count + 2) ∧
      r.getD 0 0 / 256 = TUSB_DESC_STRING ∧
      r.getD 0 0 % 256 = 2 * chr_count + 2 ∧
      2 * chr_count + 2 = 2 * (1 + chr_count) := by
  cases hw : strCbWrites tbl serialLen serialData index with
  | none =>
      rw [tud_descriptor_string_cb, hw] at hr
      exact absurd hr (by simp)
  | some p =>
      obtain ⟨ws, chr_count⟩ := p
      have hc : chr_count ≤ 32 :=
        strCbWrites_chr_count_le tbl serialLen serialData index hserial ws chr_count hw
      simp only [tud_descriptor_string_cb, hw, Option.some.injEq] at hr
      have hrr : r = applyWrites buf (ws ++ [(0, strCbHeader chr_count)]) := hr.symm
      have hne : applyWrites buf ws ≠ [] := by
        have := length_applyWrites ws buf
        intro hnil
        rw [hnil] at this
        simp at this
        omega
      have hhead : strCbHeader chr_count = 768 + (2 * chr_count + 2) := by
        unfold strCbHeader TUSB_DESC_STRING
        rw [lor_768_eq_add _ (by omega)]
        omega
      have h0 : r.getD 0 0 = strCbHeader chr_count := by
        rw [hrr, applyWrites_append_single]
        exact getD_zero_set_zero _ _ hne
      refine ⟨ws, chr_count, rfl, ?_, ?_, ?_, ?_⟩
      · rw [h0, hhead]; unfold TUSB_DESC_STRING; omega
      · rw [h0, hhead]; unfold TUSB_DESC_STRING; omega
      · rw [h0, hhead]; omega
      · omega

/-- C3 witness: the CDC table at index 2 ("ppm", three characters). -/
theorem string_desc_header_length_field_witness :
    ∃ ws chr_count,
      strCbWrites string_desc_arr_cdc 0 (fun _ => 0) 2 = some (ws, chr_count) ∧
      ((List.replicate 33 0).set 1 112 |>.set 2 112 |>.set 3 109
        |>.set 0 776).getD 0 0
        = TUSB_DESC_STRING * 256 + (2 * chr_count + 2) ∧
      ((List.replicate 33 0).set 1 112 |>.set 2 112 |>.set 3 109
        |>.set 0 776).getD 0 0 / 256 = TUSB_DESC_STRING ∧
      ((List.replicate 33 0).set 1 112 |>.set 2 112 |>.set 3 109
        |>.set 0 776).getD 0 0 % 256 = 2 * chr_count + 2 ∧
      2 * chr_count + 2 = 2 * (1 + chr_count) :=
  string_desc_header_length_field string_desc_arr_cdc 0 (fun _ => 0) 2 0x0409
    (List.replicate 33 0) _ (by decide) (by decide) (by decide)

/-- C4: any index at or beyond the six-entry string table makes the
callback return the null pointer and leave the buffer as it was, in both
firmware variants. -/
theorem string_desc_out_of_range_null
    (serialLen : Nat) (serialData : Nat → Nat) (index langid : Nat)
    (buf : List Nat) (h : 6 ≤ index) :
    tud_descriptor_string_cb string_desc_arr_pdm serialLen serialData index langid buf
      = (none, buf) ∧
    tud_descriptor_string_cb string_desc_arr_cdc serialLen serialData index langid buf
      = (none, buf) := by
  have h0 : index ≠ STRID_LANGID := by unfold STRID_LANGID; omega
  have h3 : index ≠ STRID_SERIAL := by unfold STRID_SERIAL; omega
  have hp : ¬ index < string_desc_arr_pdm.length := by
    simp [string_desc_arr_pdm]; omega
  have hc : ¬ index < string_desc_arr_cdc.length := by
    simp [string_desc_arr_cdc]; omega
  constructor <;>
    simp [tud_descriptor_string_cb, strCbWrites, h0, h3, hp, hc]

/-- C4 witness: index 6, one past the last table entry. -/
theorem string_desc_out_of_range_null_witness :
    tud_descriptor_string_cb string_desc_arr_pdm 0 (fun _ => 0) 6 0x0409 []
      = (none, []) ∧
    tud_descriptor_string_cb string_desc_arr_cdc 0 (fun _ => 0) 6 0x0409 []
      = (none, []) :=
  string_desc_out_of_range_null 0 (fun _ => 0) 6 0x0409 [] (by decide)

/-- C5: a table string longer than 32 characters is truncated to exactly 32
code units (stores to slots 1 through 32 and `chr_count = 32`), and no call
ever stores outside the 33-slot scratch buffer. -/
theorem string_desc_truncation_and_bounds
    (tbl : List (Option (List Nat))) (serialLen : Nat) (serialData : Nat → Nat)
    (index : Nat) (hserial : serialLen ≤ 32) :
    (∀ s : List Nat, index ≠ STRID_LANGID → index ≠ STRID_SERIAL →
        index < tbl.length → tbl.getD index none = some s → 32 < s.length →
        strCbWrites tbl serialLen serialData index
          = some ((List.range 32).map (fun i => (1 + i, s.getD i 0)), 32)) ∧
    (∀ iv ∈ strCbAllWrites tbl serialLen serialData index, iv.1 < 33) := by
  constructor
  · intro s h0 h3 hlt hs hlen
    unfold strCbWrites
    rw [if_neg h0, if_neg h3, if_pos hlt, hs]
    simp only [Option.getD_some]
    rw [if_pos (by omega : s.length > 33 - 1)]
  · intro iv hiv
    unfold strCbAllWrites at hiv
    rcases hw : strCbWrites tbl serialLen serialData index with - | ⟨ws, chr_count⟩
    · rw [hw] at hiv
      simp at hiv
    · have hc : chr_count ≤ 32 :=
        strCbWrites_chr_count_le tbl serialLen serialData index hserial ws chr_count hw
      rw [hw] at hiv
      simp only [List.mem_append, List.mem_singleton] at hiv
      rcases hiv with hiv | hiv
      · simp only [strCbWrites] at hw
        split_ifs at hw with h0 h3 hlt hbig <;>
          simp only [Option.some.injEq, Prod.mk.injEq] at hw
        · obtain ⟨rfl, -⟩ := hw
          simp only [List.mem_singleton] at hiv
          subst hiv
          norm_num
        · obtain ⟨rfl, -⟩ := hw
          simp only [List.mem_map, List.mem_range] at hiv
          obtain ⟨i, hi, rfl⟩ := hiv
          show 1 + i < 33
          omega
        · obtain ⟨rfl, -⟩ := hw
          simp only [List.mem_map, List.mem_range] at hiv
          obtain ⟨i, hi, rfl⟩ := hiv
          show 1 + i < 33
          omega
        · obtain ⟨rfl, -⟩ := hw
          simp only [List.mem_map, List.mem_range] at hiv
          obtain ⟨i, hi, rfl⟩ := hiv
          show 1 + i < 33
          omega
      · subst hiv
        norm_num

/-- C5 witness: a 40-character entry is cut to 32 units; every store of the
call lands inside the buffer. -/
theorem string_desc_truncation_and_bounds_witness :
    (∀ s : List Nat, 1 ≠ STRID_LANGID → 1 ≠ STRID_SERIAL →
        1 < [some ([] : List Nat), some (List.replicate 40 65)].length →
        [some ([] : List Nat), some (List.replicate 40 65)].getD 1 none = some s →
        32 < s.length →
        strCbWrites [some [], some (List.replicate 40 65)] 0 (fun _ => 0) 1
          = some ((List.range 32).map (fun i => (1 + i, s.getD i 0)), 32)) ∧
    (∀ iv ∈ strCbAllWrites [some [], some (List.replicate 40 65)] 0 (fun _ => 0) 1,
        iv.1 < 33) :=
  string_desc_truncation_and_bounds [some [], some (List.replicate 40 65)] 0
    (fun _ => 0) 1 (by decide)

/-- C8: the callback ignores `language_id` entirely — any two language ids
give the same returned pointer and the same final buffer contents, for any
table, serial provider, index and starting buffer. -/
theorem string_desc_langid_ignored
    (tbl : List (Option (List Nat))) (serialLen : Nat) (serialData : Nat → Nat)
    (index langid1 langid2 : Nat) (buf : List Nat) :
    tud_descriptor_string_cb tbl serialLen serialData index langid1 buf
      = tud_descriptor_string_cb tbl serialLen serialData index langid2 buf := rfl

/-- C9: on the CDC variant, index 1 ("ppm_loop", 8 ASCII characters) yields
the header `0x0312` (length field 18 = 2·8+2, type tag 3) followed by the
eight UTF-16 code units of "ppm_loop" in order. -/
theorem string_desc_cdc_index_one_ppm_loop :
    (tud_descriptor_string_cb string_desc_arr_cdc 0 (fun _ => 0) 1 0x0409
        (List.replicate 33 0)).1
      = some (786 :: (asciiOf "ppm_loop" ++ List.replicate 24 0)) ∧
    786 % 256 = 18 ∧ 786 / 256 = TUSB_DESC_STRING ∧ 18 = 2 * 8 + 2 ∧
    asciiOf "ppm_loop" = [112, 112, 109, 95, 108, 111, 111, 112] := by
  decide

/-- C10: when the callback returns the null pointer, the call performed no
store at all — its write trace is empty and the scratch buffer, header slot
included, is exactly the input buffer. -/
theorem string_desc_null_path_writes_nothing
    (tbl : List (Option (List Nat))) (serialLen : Nat) (serialData : Nat → Nat)
    (index langid : Nat) (buf : List Nat)
    (h : (tud_descriptor_string_cb tbl serialLen serialData index langid buf).1
          = none) :
    (tud_descriptor_string_cb tbl serialLen serialData index langid buf).2 = buf ∧
    strCbAllWrites tbl serialLen serialData index = [] := by
  cases hw : strCbWrites tbl serialLen serialData index with
  | none => rw [tud_descriptor_string_cb, strCbAllWrites, hw]; exact ⟨rfl, rfl⟩
  | some p =>
      obtain ⟨ws, chr_count⟩ := p
      rw [tud_descriptor_string_cb, hw] at h
      exact absurd h (by simp)

/-- C10 witness: the out-of-range index 6 on the audio variant's table. -/
theorem string_desc_null_path_writes_nothing_witness :
    (tud_descriptor_string_cb string_desc_arr_pdm 0 (fun _ => 0) 6 0
        [7, 7, 7]).2 = [7, 7, 7] ∧
    strCbAllWrites string_desc_arr_pdm 0 (fun _ => 0) 6 = [] :=
  string_desc_null_path_writes_nothing string_desc_arr_pdm 0 (fun _ => 0) 6 0
    [7, 7, 7] (by decide)

/-! ## Claim about the configuration descriptors -/

/-- C6: for each device variant, the total-length field embedded in the
configuration header equals the byte length of the full concatenated
descriptor returned by `tud_descriptor_configuration_cb`.  For the audio
variant the stereo-headset block is any byte block honouring its
`TUD_AUDIO_HEADSET_STEREO_DESC_LEN` length contract (the block lives in the
project's usb_descriptors.h, outside src/). -/
theorem config_descriptor_total_length_matches :
    (∀ index, declaredTotalLen (tud_descriptor_configuration_cb_cdc index)
        = (tud_descriptor_configuration_cb_cdc index).length) ∧
    (∀ (itf_count headsetLen : Nat) (headset : List Nat) (index : Nat),
        headset.length = headsetLen →
        TUD_CONFIG_DESC_LEN + headsetLen < 65536 →
        declaredTotalLen
            (tud_descriptor_configuration_cb_audio itf_count headsetLen headset index)
          = (tud_descriptor_configuration_cb_audio itf_count headsetLen headset
              index).length) := by
  constructor
  · intro index
    unfold tud_descriptor_configuration_cb_cdc
    decide
  · intro itf_count headsetLen headset index hlen hbound
    simp only [tud_descriptor_configuration_cb_audio, desc_configuration_audio,
      declaredTotalLen, tudConfigDescriptor, TUD_CONFIG_DESC_LEN,
      TUSB_DESC_CONFIGURATION, List.cons_append, List.nil_append,
      List.getD_cons_succ, List.getD_cons_zero, List.length_cons, List.length_append,
      one_mul] at *
    omega

/-- C6 witness: CDC variant at index 0, audio variant with a 203-byte
headset block. -/
theorem config_descriptor_total_length_matches_witness :
    declaredTotalLen (tud_descriptor_configuration_cb_cdc 0)
      = (tud_descriptor_configuration_cb_cdc 0).length ∧
    declaredTotalLen
        (tud_descriptor_configuration_cb_audio 3 203 (List.replicate 203 0) 0)
      = (tud_descriptor_configuration_cb_audio 3 203 (List.replicate 203 0)
          0).length :=
  ⟨config_descriptor_total_length_matches.1 0,
   config_descriptor_total_length_matches.2 3 203 (List.replicate 203 0) 0
     (List.length_replicate _ _) (by norm_num [TUD_CONFIG_DESC_LEN])⟩

/-! ## Claims about the pulse generator -/

/-- C7: one cycle of the pulse generator on command `N`.  First conjunct:
at the top of its loop with an empty command queue the machine stalls on
`pull block`, holding the pin low — it blocks until a value arrives.
Second conjunct: once `N` is in the queue, the output pin is high during
exactly the two cycles 2 and `6 + 2N` — two rising-edge pulses framing one
continuous low period of `2N + 3` cycles, minimal at `N = 0`.  Third
conjunct: from cycle `8 + 2N` on the machine is back at the `pull`, queue
drained, awaiting the next command forever — no terminal state. -/
theorem generator_two_pulses_and_returns (N : Nat) :
    (∀ (x0 o0 : Nat) (p0 : Bool) (t0 : Nat),
        genStep ⟨0, x0, o0, p0, [], t0⟩ = ⟨0, x0, o0, false, [], t0 + 1⟩) ∧
    (∀ n, genPin N n = true ↔ (n = 2 ∨ n = 6 + 2 * N)) ∧
    (∀ m, genRun N (8 + 2 * N + m) = ⟨0, MAX32, N, false, [], 8 + 2 * N + m⟩) := by
  have hstall0 : ∀ (x0 o0 : Nat) (p0 : Bool) (t0 : Nat),
      genStep ⟨0, x0, o0, p0, [], t0⟩ = ⟨0, x0, o0, false, [], t0 + 1⟩ := by
    intro x0 o0 p0 t0
    simp [genStep]
  have a1 : genRun N 1 = ⟨1, 0, N, false, [], 1⟩ := by
    simp [genRun, genRunFrom, genInit, genStep]
  have a2 : genRun N 2 = ⟨2, N, N, false, [], 2⟩ := by
    rw [genRun_succ, a1]; simp [genStep]
  have a3 : genRun N 3 = ⟨3, N, N, true, [], 3⟩ := by
    rw [genRun_succ, a2]; simp [genStep]
  have a4 : genRun N 4 = ⟨4, N, N, false, [], 4⟩ := by
    rw [genRun_succ, a3]; simp [genStep]
  have a4' : genRunFrom (genInit N) 4 = ⟨4, N, N, false, [], 4⟩ := a4
  have hloop : ∀ m, m ≤ 2 * N + 1 →
      genRun N (4 + m)
        = ⟨if m % 2 = 0 then 4 else 5, N - m / 2, N, false, [], 4 + m⟩ := by
    intro m hm
    unfold genRun
    rw [genRunFrom_add, a4']
    exact gen_loop N N 4 m hm
  have a5 : genRun N (5 + 2 * N) = ⟨5, 0, N, false, [], 5 + 2 * N⟩ := by
    have h := hloop (2 * N + 1) (le_refl _)
    rw [if_neg (by omega : ¬((2 * N + 1) % 2 = 0)),
      (by omega : N - (2 * N + 1) / 2 = 0),
      (by omega : 4 + (2 * N + 1) = 5 + 2 * N)] at h
    exact h
  have a6 : genRun N (6 + 2 * N) = ⟨6, MAX32, N, false, [], 6 + 2 * N⟩ := by
    rw [(by omega : 6 + 2 * N = (5 + 2 * N) + 1), genRun_succ, a5]
    simp [genStep]
  have a7 : genRun N (7 + 2 * N) = ⟨7, MAX32, N, true, [], 7 + 2 * N⟩ := by
    rw [(by omega : 7 + 2 * N = (6 + 2 * N) + 1), genRun_succ, a6]
    simp [genStep]
  have a8 : genRun N (8 + 2 * N) = ⟨0, MAX32, N, false, [], 8 + 2 * N⟩ := by
    rw [(by omega : 8 + 2 * N = (7 + 2 * N) + 1), genRun_succ, a7]
    simp [genStep]
  have hwait : ∀ m,
      genRun N (8 + 2 * N + m) = ⟨0, MAX32, N, false, [], 8 + 2 * N + m⟩ := by
    intro m
    induction m with
    | zero => exact a8
    | succ m ih =>
        have hstep : genRun N (8 + 2 * N + (m + 1))
            = genStep (genRun N (8 + 2 * N + m)) := rfl
        rw [hstep, ih]
        exact hstall0 MAX32 N false (8 + 2 * N + m)
  refine ⟨hstall0, ?_, hwait⟩
  intro n
  unfold genPin
  rcases Nat.lt_or_ge n 4 with h4 | h4
  · interval_cases n
    · rw [a1]; simp; omega
    · rw [a2]; simp; omega
    · rw [a3]; simp
    · rw [a4]; simp; omega
  · rcases Nat.lt_or_ge n (5 + 2 * N) with h5 | h5
    · rw [(by omega : n + 1 = 4 + (n - 3)), hloop (n - 3) (by omega)]
      simp
      omega
    · rcases Nat.lt_or_ge n (6 + 2 * N) with h6 | h6
      · rw [(by omega : n + 1 = 6 + 2 * N), a6]
        simp
        omega
      · rcases Nat.lt_or_ge n (7 + 2 * N) with h7 | h7
        · rw [(by omega : n + 1 = 7 + 2 * N), a7]
          simp
          omega
        · rw [(by omega : n + 1 = 8 + 2 * N + (n - 7 - 2 * N)), hwait]
          simp
          omega

/-! ## Claims about the detector's measurement -/

/-- C1 (amended): on the waveform `W D` whose measured pause lasts `D`
cycles, the detector emits exactly one sample, and its value is
`(D - 3) / 2` — the number of completed two-cycle polling iterations, not
the pause's cycle count `D`.  On a waveform whose pause never ends the
detector emits exactly one sample equal to `0`, not the saturated maximum:
the fall-through `jmp y--` wraps `y` from `0` to the all-ones value, so
`mov ISR, ~y` produces `0`. -/
theorem detector_sample_count_and_saturation :
    (∀ D, 1 ≤ D → (D - 3) / 2 ≤ MAX32 → ∀ n,
        (detRun (W D) n).fifo
          = if n < 15 + 2 * ((D - 3) / 2) then [] else [(D - 3) / 2]) ∧
    (∀ n, (detRun Winf n).fifo = if n < 16 + 2 * MAX32 then [] else [0]) := by
  constructor
  · intro D hD hk n
    obtain ⟨k, hkdef⟩ : ∃ k, k = (D - 3) / 2 := ⟨_, rfl⟩
    rw [← hkdef]
    have hw8 : W D 8 = false := by
      unfold W
      rw [if_neg (by omega), if_neg (by omega), if_neg (by omega),
        if_pos (by omega)]
    obtain ⟨h12, hfifoA⟩ := det_phaseA (W D) rfl rfl rfl rfl rfl rfl hw8
    have hlow : ∀ j, j < k → W D (12 + 2 * j) = false := by
      intro j hj
      unfold W
      rw [if_neg (by omega), if_neg (by omega), if_neg (by omega),
        if_pos (by omega)]
    have hloopStates : ∀ m, m ≤ 2 * k →
        detRun (W D) (12 + m)
          = ⟨if m % 2 = 0 then 4 else 5, MAX32 - m / 2, 0, 0, [], 12 + m⟩ := by
      intro m hm
      have hsplit : detRun (W D) (12 + m)
          = detRunFrom (W D) (detRun (W D) 12) m := by
        unfold detRun
        rw [detRunFrom_add]
      rw [hsplit, h12]
      exact det_loop (W D) MAX32 0 12 [] k (by omega) hlow m hm
    have hE0 : detRun (W D) (12 + 2 * k)
        = ⟨4, MAX32 - k, 0, 0, [], 12 + 2 * k⟩ := by
      have h := hloopStates (2 * k) (le_refl _)
      rw [if_pos (by omega : (2 * k) % 2 = 0),
        (by omega : (2 * k) / 2 = k)] at h
      exact h
    have hWhigh : W D (12 + 2 * k) = true := by
      unfold W
      rw [if_neg (by omega), if_neg (by omega), if_neg (by omega),
        if_neg (by omega)]
    have hE1 : detRun (W D) (12 + 2 * k + 1)
        = ⟨6, MAX32 - k, 0, 0, [], 12 + 2 * k + 1⟩ := by
      rw [detRun_succ, hE0]
      simp [detStep, hWhigh]
    have hE2 : detRun (W D) (12 + 2 * k + 1 + 1)
        = ⟨7, MAX32 - k, k, 0, [], 12 + 2 * k + 1 + 1⟩ := by
      rw [detRun_succ, hE1]
      simp [detStep, DetState.mk.injEq]
      omega
    have hE3 : detRun (W D) (12 + 2 * k + 1 + 1 + 1)
        = ⟨0, MAX32 - k, 0, 0, [k], 12 + 2 * k + 1 + 1 + 1⟩ := by
      rw [detRun_succ, hE2]
      simp [detStep]
    have hstall : ∀ m, detRun (W D) (12 + 2 * k + 1 + 1 + 1 + m)
        = ⟨0, MAX32 - k, 0, 0, [k], 12 + 2 * k + 1 + 1 + 1 + m⟩ := by
      intro m
      induction m with
      | zero => exact hE3
      | succ m ih =>
          have hwst : W D (12 + 2 * k + 1 + 1 + 1 + m) = true := by
            unfold W
            rw [if_neg (by omega), if_neg (by omega), if_neg (by omega),
              if_neg (by omega)]
          have hstep : detRun (W D) (12 + 2 * k + 1 + 1 + 1 + (m + 1))
              = detStep (W D) (detRun (W D) (12 + 2 * k + 1 + 1 + 1 + m)) := rfl
          rw [hstep, ih]
          simp [detStep, hwst, DetState.mk.injEq]
          omega
    by_cases hn : n < 15 + 2 * k
    · rw [if_pos hn]
      rcases Nat.lt_or_ge n 13 with h13 | h13
      · exact hfifoA n (by omega)
      · rcases Nat.lt_or_ge n (13 + 2 * k) with hl | hl
        · have h := hloopStates (n - 12) (by omega)
          rw [(by omega : 12 + (n - 12) = n)] at h
          rw [h]
        · rcases Nat.lt_or_ge n (14 + 2 * k) with he1 | he2
          · have h := hE1
            rw [(by omega : 12 + 2 * k + 1 = n)] at h
            rw [h]
          · have h := hE2
            rw [(by omega : 12 + 2 * k + 1 + 1 = n)] at h
            rw [h]
    · rw [if_neg hn]
      have h := hstall (n - (15 + 2 * k))
      rw [(by omega : 12 + 2 * k + 1 + 1 + 1 + (n - (15 + 2 * k)) = n)] at h
      rw [h]
  · intro n
    obtain ⟨h12, hfifoA⟩ := det_phaseA Winf rfl rfl rfl rfl rfl rfl rfl
    have hwlow : ∀ t, 8 ≤ t → Winf t = false := by
      intro t ht
      unfold Winf
      rw [if_neg (by omega), if_neg (by omega), if_neg (by omega)]
    have hlow : ∀ j, j < MAX32 → Winf (12 + 2 * j) = false := by
      intro j hj
      exact hwlow _ (by omega)
    have hloopStates : ∀ m, m ≤ 2 * MAX32 →
        detRun Winf (12 + m)
          = ⟨if m % 2 = 0 then 4 else 5, MAX32 - m / 2, 0, 0, [], 12 + m⟩ := by
      intro m hm
      have hsplit : detRun Winf (12 + m)
          = detRunFrom Winf (detRun Winf 12) m := by
        unfold detRun
        rw [detRunFrom_add]
      rw [hsplit, h12]
      exact det_loop Winf MAX32 0 12 [] MAX32 (le_refl _) hlow m hm
    have hI0 : detRun Winf (12 + 2 * MAX32)
        = ⟨4, 0, 0, 0, [], 12 + 2 * MAX32⟩ := by
      have h := hloopStates (2 * MAX32) (le_refl _)
      rw [if_pos (by omega : (2 * MAX32) % 2 = 0),
        (by omega : MAX32 - (2 * MAX32) / 2 = 0)] at h
      exact h
    have hI1 : detRun Winf (12 + 2 * MAX32 + 1)
        = ⟨5, 0, 0, 0, [], 12 + 2 * MAX32 + 1⟩ := by
      rw [detRun_succ, hI0]
      simp [detStep, hwlow (12 + 2 * MAX32) (by omega)]
    have hI2 : detRun Winf (12 + 2 * MAX32 + 1 + 1)
        = ⟨6, MAX32, 0, 0, [], 12 + 2 * MAX32 + 1 + 1⟩ := by
      rw [detRun_succ, hI1]
      simp [detStep]
    have hI3 : detRun Winf (12 + 2 * MAX32 + 1 + 1 + 1)
        = ⟨7, MAX32, 0, 0, [], 12 + 2 * MAX32 + 1 + 1 + 1⟩ := by
      rw [detRun_succ, hI2]
      simp [detStep]
    have hI4 : detRun Winf (12 + 2 * MAX32 + 1 + 1 + 1 + 1)
        = ⟨0, MAX32, 0, 0, [0], 12 + 2 * MAX32 + 1 + 1 + 1 + 1⟩ := by
      rw [detRun_succ, hI3]
      simp [detStep]
    have hg1 : detRun Winf (12 + 2 * MAX32 + 1 + 1 + 1 + 1 + 1)
        = ⟨1, MAX32, 0, 2, [0], 12 + 2 * MAX32 + 1 + 1 + 1 + 1 + 1⟩ := by
      rw [detRun_succ, hI4]
      simp [detStep, hwlow (12 + 2 * MAX32 + 1 + 1 + 1 + 1) (by omega)]
    have hg2 : detRun Winf (12 + 2 * MAX32 + 1 + 1 + 1 + 1 + 1 + 1)
        = ⟨1, MAX32, 0, 1, [0], 12 + 2 * MAX32 + 1 + 1 + 1 + 1 + 1 + 1⟩ := by
      rw [detRun_succ, hg1]
      simp [detStep]
    have hg3 : detRun Winf (12 + 2 * MAX32 + 1 + 1 + 1 + 1 + 1 + 1 + 1)
        = ⟨1, MAX32, 0, 0, [0], 12 + 2 * MAX32 + 1 + 1 + 1 + 1 + 1 + 1 + 1⟩ := by
      rw [detRun_succ, hg2]
      simp [detStep]
    have hgstall : ∀ m,
        detRun Winf (12 + 2 * MAX32 + 1 + 1 + 1 + 1 + 1 + 1 + 1 + m)
          = ⟨1, MAX32, 0, 0, [0],
             12 + 2 * MAX32 + 1 + 1 + 1 + 1 + 1 + 1 + 1 + m⟩ := by
      intro m
      induction m with
      | zero => exact hg3
      | succ m ih =>
          have hstep :
              detRun Winf (12 + 2 * MAX32 + 1 + 1 + 1 + 1 + 1 + 1 + 1 + (m + 1))
                = detStep Winf
                    (detRun Winf
                      (12 + 2 * MAX32 + 1 + 1 + 1 + 1 + 1 + 1 + 1 + m)) := rfl
          rw [hstep, ih]
          simp [detStep,
            hwlow (12 + 2 * MAX32 + 1 + 1 + 1 + 1 + 1 + 1 + 1 + m) (by omega),
            DetState.mk.injEq]
          omega
    by_cases hn : n < 16 + 2 * MAX32
    · rw [if_pos hn]
      rcases Nat.lt_or_ge n 13 with h13 | h13
      · exact hfifoA n (by omega)
      · rcases Nat.lt_or_ge n (13 + 2 * MAX32) with hl | hl
        · have h := hloopStates (n - 12) (by omega)
          rw [(by omega : 12 + (n - 12) = n)] at h
          rw [h]
        · rcases Nat.lt_or_ge n (14 + 2 * MAX32) with hc | hc
          · have h := hI1
            rw [(by omega : 12 + 2 * MAX32 + 1 = n)] at h
            rw [h]
          · rcases Nat.lt_or_ge n (15 + 2 * MAX32) with hc2 | hc2
            · have h := hI2
              rw [(by omega : 12 + 2 * MAX32 + 1 + 1 = n)] at h
              rw [h]
            · have h := hI3
              rw [(by omega : 12 + 2 * MAX32 + 1 + 1 + 1 = n)] at h
              rw [h]
    · rw [if_neg hn]
      rcases Nat.lt_or_ge n (17 + 2 * MAX32) with hc | hc
      · have h := hI4
        rw [(by omega : 12 + 2 * MAX32 + 1 + 1 + 1 + 1 = n)] at h
        rw [h]
      · rcases Nat.lt_or_ge n (18 + 2 * MAX32) with hc2 | hc2
        · have h := hg1
          rw [(by omega : 12 + 2 * MAX32 + 1 + 1 + 1 + 1 + 1 = n)] at h
          rw [h]
        · rcases Nat.lt_or_ge n (19 + 2 * MAX32) with hc3 | hc3
          · have h := hg2
            rw [(by omega : 12 + 2 * MAX32 + 1 + 1 + 1 + 1 + 1 + 1 = n)] at h
            rw [h]
          · have h := hgstall (n - (19 + 2 * MAX32))
            rw [(by omega :
              12 + 2 * MAX32 + 1 + 1 + 1 + 1 + 1 + 1 + 1 + (n - (19 + 2 * MAX32))
                = n)] at h
            rw [h]

/-- C1 witness: a pause of 10 cycles yields the single sample 3 = (10-3)/2
once the measurement completes. -/
theorem detector_sample_count_and_saturation_witness :
    (detRun (W 10) 21).fifo
      = if 21 < 15 + 2 * ((10 - 3) / 2) then [] else [(10 - 3) / 2] :=
  detector_sample_count_and_saturation.1 10 (by norm_num)
    (by norm_num [MAX32]) 21

/-- C1 counterexample: on the waveform with a pause of exactly 10 cycles
the claim "the detector emits exactly one sample whose value equals the
pause duration" fails — after 21 cycles the FIFO holds the single sample 3,
which is neither the empty history nor the sample 10. -/
theorem detector_sample_not_pause_cycle_count :
    ¬ (∀ n, (detRun (W 10) n).fifo = [] ∨ (detRun (W 10) n).fifo = [10]) := by
  intro h
  have h21 := h 21
  revert h21
  decide

/-! ## Claim about the detector's push -/

/-- C2: the detector's final instruction is `push` with no modifier, which
assembles to `push block`: with the 4-deep RX FIFO already full, the state
machine stalls at the push — the FIFO is unchanged, the program counter
stays at the push instruction, and the pending sample is retained in ISR
instead of being dropped so the machine cannot proceed to the next
measurement.  (The source's own comment on the instruction says "put value
into FIFO noblock".) -/
theorem detector_push_blocks_when_fifo_full :
    detStep (fun _ => false) ⟨7, 0, 5, 0, [10, 11, 12, 13], 100⟩
      = ⟨7, 0, 5, 0, [10, 11, 12, 13], 101⟩ ∧
    (detStep (fun _ => false) ⟨7, 0, 5, 0, [10, 11, 12, 13], 100⟩).fifo
      = [10, 11, 12, 13] ∧
    (detStep (fun _ => false) ⟨7, 0, 5, 0, [10, 11, 12, 13], 100⟩).pc = 7 := by
  decide
